import Mathlib

/-!
Verification of the Sequential Draw-and-Placement Scoring Engine of the
Collective-intelligence repository.

The data model and operations are embedded from src/App.tsx,
src/components/HostView.tsx and src/components/PlayerView.tsx.  The helper
module utils.ts (createFullDeck, calculatePlayerScore, getScoringGroups,
checkGameEnd, calculateFinalRanking, generateGameId, generatePlayerId) is not
part of the available sources, only its callers are; those definitions are
modelled from the specification and are marked `Modelled from the spec:`.

React state updates are embedded as pure functions: a handler that returns
early without calling updateGame leaves the state untouched, which is embedded
as an `Except`/`Option` failure result carrying the spec name (§7) of the guard
that fired; a handler that calls updateGame produces the merged new state.
-/

namespace CollectiveIntelligence

/-- A player entry as created by joinTeam in src/App.tsx (id, name, joinedAt). -/
structure Player where
  id : String
  name : String
  joinedAt : String
deriving DecidableEq, Repr

/-- One team's state as created in src/App.tsx (createCompanyGame / createMockGame):
team number, roster, the 20-slot board, the stored score, the per-round placement
flag and the identity of the last placer. -/
structure Team where
  teamNumber : Nat
  players : List Player
  board : List (Option Nat)
  score : Nat
  hasPlacedCurrentNumber : Bool
  placedBy : Option String
deriving DecidableEq, Repr

/-- A frozen final-ranking entry (spec §3 FinalRankingEntry). -/
structure RankEntry where
  teamNumber : Nat
  score : Nat
  rank : Nat
deriving DecidableEq, Repr

/-- The per-game state object of src/App.tsx (GameState). -/
structure GameState where
  companyName : String
  teamCount : Nat
  teams : List Team
  availableNumbers : List Nat
  usedNumbers : List Nat
  usedCardIndices : List Nat
  currentNumber : Option Nat
  gameStarted : Bool
  gameEnded : Bool
  waitingForPlacements : Bool
  currentRound : Nat
  finalRanking : List RankEntry
  creatorId : String
  createdAt : String
deriving DecidableEq, Repr

/-- Modelled from the spec: `pointsForLength` (§4.3), the fixed table from run
length to score contribution; utils.ts is not under src/.  Total over 1..20,
0 elsewhere (the ring size is fixed at 20 so no other length occurs). -/
def pointsForLength : Nat → Nat
  | 1 => 0
  | 2 => 1
  | 3 => 3
  | 4 => 5
  | 5 => 7
  | 6 => 9
  | 7 => 11
  | 8 => 15
  | 9 => 20
  | 10 => 25
  | 11 => 30
  | 12 => 35
  | 13 => 40
  | 14 => 50
  | 15 => 60
  | 16 => 70
  | 17 => 85
  | 18 => 100
  | 19 => 150
  | 20 => 300
  | _ => 0

/-- Modelled from the spec: the single scan of §4.3 recording run boundaries.
Collects the maximal runs of consecutive `true` entries of the mask as lists of
indices, indices counted from `i`. -/
def runsFrom : Nat → List Bool → List (List Nat)
  | _, [] => []
  | i, false :: rest => runsFrom (i + 1) rest
  | i, true :: rest =>
    match runsFrom (i + 1) rest with
    | [] => [[i]]
    | r :: rs => if r.head? = some (i + 1) then (i :: r) :: rs else [i] :: r :: rs

/-- Maximal runs of consecutively filled positions, left to right, no wrap yet. -/
def linearRuns (mask : List Bool) : List (List Nat) := runsFrom 0 mask

/-- Modelled from the spec: cyclic run detection of `computeScoringGroups`
(§4.3); utils.ts is not under src/.  The ring adjacency (slot 19 adjacent to
slot 0) is realised by the cyclic merge: when there are at least two runs and
both the first and the last slot are filled, the trailing run is merged into
the leading run.  A fully filled ring yields a single linear run already, the
special case of one run of length 20. -/
def cyclicRuns (mask : List Bool) : List (List Nat) :=
  match linearRuns mask with
  | [] => []
  | [r] => [r]
  | r :: rs =>
    if mask.head? = some true && mask.getLast? = some true then
      (rs.getLastD [] ++ r) :: rs.dropLast
    else
      r :: rs

/-- Modelled from the spec: `computeScore` (§4.3), named calculatePlayerScore in
the code (called from src/App.tsx line 660); utils.ts is not under src/.
Partitions the filled slots into maximal contiguous cyclic runs (length-1 runs
included) and sums `pointsForLength` over every run.  Only the filled/empty
mask of the board matters. -/
def calculatePlayerScore (board : List (Option Nat)) : Nat :=
  ((cyclicRuns (board.map Option.isSome)).map (fun r => pointsForLength r.length)).sum

/-- Modelled from the spec: `computeScoringGroups` (§4.3), named
getScoringGroups in the code (called from src/components/HostView.tsx line 302
and src/components/PlayerView.tsx line 129); utils.ts is not under src/.
Runs of length at least 2 get a shared group id; length-1 runs are not listed
(ungrouped), matching the undefined lookup result the views test with
`groupID !== undefined`.  Returned as a slot-to-group-id association list. -/
def getScoringGroups (board : List (Option Nat)) : List (Nat × Nat) :=
  let scoring := (cyclicRuns (board.map Option.isSome)).filter (fun r => 2 ≤ r.length)
  (scoring.enum.map (fun p => p.2.map (fun s => (s, p.1)))).flatten

/-- src/components/PlayerView.tsx lines 60-71: the score table rendered to
players, embedded verbatim as (length, points) pairs in source order. -/
def SCORE_TABLE_DATA : List (Nat × Nat) :=
  [(1, 0), (11, 30),
   (2, 1), (12, 35),
   (3, 3), (13, 40),
   (4, 5), (14, 50),
   (5, 7), (15, 60),
   (6, 9), (16, 70),
   (7, 11), (17, 85),
   (8, 15), (18, 100),
   (9, 20), (19, 150),
   (10, 25), (20, 300)]

/-- Modelled from the spec: `buildDeck` (§4.1), named createFullDeck in the
code (called from src/App.tsx line 538 and src/components/HostView.tsx line
34); utils.ts is not under src/.  The deck is an ordered sequence of exactly
N = 40 cards (§3, reference configuration); the value-generation rule is an
external configuration input (§9 open question), taken here as values 1..40.
No claim depends on the card values, only on the 40 indices. -/
def createFullDeck : List Nat := (List.range 40).map (fun i => i + 1)

/-- src/components/HostView.tsx line 34: FULL_DECK = createFullDeck(). -/
def FULL_DECK : List Nat := createFullDeck

/-- Teams with at least one member (spec glossary: active team), the filter
used throughout src/App.tsx (players.length > 0). -/
def activeTeams (g : GameState) : List Team :=
  g.teams.filter (fun t => 0 < t.players.length)

/-- Modelled from the spec: the termination condition of `terminationCheck`
(§4.4), named checkGameEnd in the code (called from src/App.tsx line 679);
utils.ts is not under src/.  True iff the round counter has reached the
configured maximum (board capacity, 20) or every active team's board has no
empty slot remaining; either alone is sufficient. -/
def checkGameEnd (g : GameState) : Bool :=
  decide (20 ≤ g.currentRound) || (activeTeams g).all (fun t => t.board.all Option.isSome)

/-- Modelled from the spec: `rank(teams)` of the Ranking Calculator (§4.5),
named calculateFinalRanking in the code (called from src/App.tsx line 681);
utils.ts is not under src/.  Orders the active teams by score descending, ties
broken by ascending team number, producing 1-based ranks. -/
def calculateFinalRanking (g : GameState) : List RankEntry :=
  let sorted := (activeTeams g).mergeSort (fun a b =>
    decide (b.score < a.score) || (a.score == b.score && decide (a.teamNumber ≤ b.teamNumber)))
  sorted.enum.map (fun p => { teamNumber := p.2.teamNumber, score := p.2.score, rank := p.1 + 1 })

/-- The error kinds of spec §7 that the placement handler can signal.  The
source (src/App.tsx placeNumberInTeam, lines 648-684) signals rejection by
returning early without calling updateGame; each early return is embedded as
the spec name of the guard that fired.  `GameNotActive` stands for the
gameStarted/gameEnded guard of line 653, which has no §7 name, and
`InvalidTeam` for a team index outside the teams array, on which the source
would fault at line 654 when reading a property of undefined. -/
inductive PlaceError where
  | GameNotActive
  | InvalidTeam
  | AlreadyPlacedThisRound
  | SlotOccupied
  | NoActiveDraw
deriving DecidableEq, Repr

/-- The error kind of spec §7 that the draw handler can signal. -/
inductive DrawError where
  | RoundInProgress
deriving DecidableEq, Repr

/-- The error kind of spec §7 that the start handler can signal. -/
inductive StartError where
  | NotEnoughTeams
deriving DecidableEq, Repr

/-- src/App.tsx lines 613-625 (startCompanyGame): requires at least one team
with a member, else alerts and leaves the state unchanged (NotEnoughTeams);
on success merges gameStarted = true, currentRound = 0, currentNumber = null. -/
def startCompanyGame (g : GameState) : Except StartError GameState :=
  if (g.teams.filter (fun t => 0 < t.players.length)).length < 1 then
    .error .NotEnoughTeams
  else
    .ok { g with gameStarted := true, currentRound := 0, currentNumber := none }

/-- src/App.tsx lines 627-646 (selectNumberByHost): when waitingForPlacements
is set it alerts and returns without mutating (RoundInProgress); otherwise it
merges the new draw: currentNumber, usedNumbers and usedCardIndices appended,
availableNumbers kept, waitingForPlacements set, round counter incremented,
and every team's hasPlacedCurrentNumber and placedBy reset.  The callers in
HostView pass num = FULL_DECK[cardIndex]. -/
def selectNumberByHost (g : GameState) (num : Nat) (cardIndex : Nat) :
    Except DrawError GameState :=
  if g.waitingForPlacements then
    .error .RoundInProgress
  else
    .ok { g with
      currentNumber := some num
      usedNumbers := g.usedNumbers ++ [num]
      usedCardIndices := g.usedCardIndices ++ [cardIndex]
      availableNumbers := g.availableNumbers
      waitingForPlacements := true
      currentRound := g.currentRound + 1
      teams := g.teams.map (fun t =>
        { t with hasPlacedCurrentNumber := false, placedBy := none }) }

/-- src/App.tsx lines 648-684 (placeNumberInTeam), guards in source order:
game not started or already ended; team already placed this round; target slot
not empty (a JS out-of-range read gives undefined, which also fails the
`!== null` test, hence the `some none` comparison); no current draw (the JS
falsy test `!activeGame.currentNumber` also fires on the value 0).  On success
the slot is set, the score recomputed from scratch from the whole new board,
the flag and placer recorded, and when every active team has now placed the
round settles and the termination check runs on the merged state; on
termination gameEnded is set and the final ranking computed and frozen. -/
def placeNumberInTeam (g : GameState) (teamIdx : Nat) (playerName : String)
    (position : Nat) : Except PlaceError GameState :=
  if !g.gameStarted || g.gameEnded then .error .GameNotActive
  else
    match g.teams.get? teamIdx with
    | none => .error .InvalidTeam
    | some team =>
      if team.hasPlacedCurrentNumber then .error .AlreadyPlacedThisRound
      else if team.board.get? position != some none then .error .SlotOccupied
      else
        match g.currentNumber with
        | none => .error .NoActiveDraw
        | some v =>
          if v == 0 then .error .NoActiveDraw
          else
            let newBoard := team.board.set position (some v)
            let newScore := calculatePlayerScore newBoard
            let newTeams := g.teams.set teamIdx
              { team with
                board := newBoard
                score := newScore
                hasPlacedCurrentNumber := true
                placedBy := some playerName }
            let allPlaced := (newTeams.filter (fun t => 0 < t.players.length)).all
              (fun t => t.hasPlacedCurrentNumber)
            let mid := { g with teams := newTeams, waitingForPlacements := !allPlaced }
            if allPlaced && checkGameEnd mid then
              let fin := { mid with gameEnded := true }
              .ok { fin with finalRanking := calculateFinalRanking fin }
            else
              .ok mid

/-- src/components/HostView.tsx lines 47-49: the deck indices (0..39) not yet
in game.usedCardIndices. -/
def availableIndices (g : GameState) : List Nat :=
  (List.range FULL_DECK.length).filter (fun idx => !g.usedCardIndices.contains idx)

/-- src/components/HostView.tsx lines 43-58 (handleRandomSelect): returns
early when a round is in progress or the game has ended, or when no undrawn
index remains (DeckExhausted); otherwise stores the pending selection
(value, index) of a uniformly random undrawn index.  Math.random is embedded
by the seed k: Math.floor(Math.random() * len) is a uniform element of
[0, len), realised here as k % len. -/
def handleRandomSelect (g : GameState) (k : Nat) : Option (Nat × Nat) :=
  if g.waitingForPlacements || g.gameEnded then none
  else
    let avail := availableIndices g
    if avail.length = 0 then none
    else
      let randomIdx := avail.getD (k % avail.length) 0
      some (FULL_DECK.getD randomIdx 0, randomIdx)

/-- Modelled from the spec: game-identifier generation from human-entered
names is an external collaborator (spec §1) and utils.ts generateGameId is not
under src/; taken as the identity, which no claim depends on. -/
def generateGameId (companyName : String) : String := companyName

/-- The emptiness test src/App.tsx line 568 applies to the player name
(`!playerName.trim()`): the trimmed name is empty exactly when the name
consists only of whitespace, which is how it is embedded here. -/
def isBlankName (s : String) : Bool := s.data.all Char.isWhitespace

/-- src/App.tsx lines 564-611 (joinTeam), guards in source order: game id not
found; empty trimmed name; team full (10 players); duplicate name in the team.
The source reads teams[teamNumberIdx] unchecked and would fault on an
out-of-range index; that case is embedded as leaving the list unchanged.
generatePlayerId() and the join timestamp are the nondeterministic inputs pid
and joinedAt.  On success exactly the target team of the target game gains the
one new player. -/
def joinTeam (games : List GameState) (gameId : String) (teamNumberIdx : Nat)
    (playerName : String) (pid : String) (joinedAt : String) : List GameState :=
  match games.findIdx? (fun g => generateGameId g.companyName == gameId) with
  | none => games
  | some gameIndex =>
    if isBlankName playerName then games
    else
      match games.get? gameIndex with
      | none => games
      | some game =>
        match game.teams.get? teamNumberIdx with
        | none => games
        | some team =>
          if 10 ≤ team.players.length then games
          else if team.players.any (fun p => p.name == playerName) then games
          else
            let newPlayer : Player := { id := pid, name := playerName, joinedAt := joinedAt }
            let newTeams := game.teams.mapIdx (fun idx t =>
              if idx = teamNumberIdx then { t with players := t.players ++ [newPlayer] } else t)
            games.set gameIndex { game with teams := newTeams }

/-- The effect of joinTeam on the one targeted game, used by the reachability
relation; same guards as joinTeam, returning the game unchanged on rejection. -/
def joinTeamGame (g : GameState) (teamNumberIdx : Nat) (playerName : String)
    (pid : String) (joinedAt : String) : GameState :=
  if isBlankName playerName then g
  else
    match g.teams.get? teamNumberIdx with
    | none => g
    | some team =>
      if 10 ≤ team.players.length then g
      else if team.players.any (fun p => p.name == playerName) then g
      else
        let newPlayer : Player := { id := pid, name := playerName, joinedAt := joinedAt }
        { g with teams := g.teams.mapIdx (fun idx t =>
            if idx = teamNumberIdx then { t with players := t.players ++ [newPlayer] } else t) }

/-- src/App.tsx lines 527-549: the fresh GameState built by createCompanyGame:
teamCount empty teams with 20 empty slots and score 0, the full deck, nothing
drawn, no current number, round 0, not started. -/
def initialGame (companyName : String) (teamCount : Nat) (creatorId : String)
    (createdAt : String) : GameState where
  companyName := companyName
  teamCount := teamCount
  teams := (List.range teamCount).map (fun i =>
    { teamNumber := i + 1
      players := []
      board := List.replicate 20 none
      score := 0
      hasPlacedCurrentNumber := false
      placedBy := none })
  availableNumbers := createFullDeck
  usedNumbers := []
  usedCardIndices := []
  currentNumber := none
  gameStarted := false
  gameEnded := false
  waitingForPlacements := false
  currentRound := 0
  finalRanking := []
  creatorId := creatorId
  createdAt := createdAt

/-- Game states reachable from creation (src/App.tsx createCompanyGame)
through the mutating handlers: roster joins, game start, host draws and team
placements. -/
inductive Reachable : GameState → Prop where
  | init (companyName : String) (teamCount : Nat) (creatorId createdAt : String) :
      Reachable (initialGame companyName teamCount creatorId createdAt)
  | join {g : GameState} (teamNumberIdx : Nat) (playerName pid joinedAt : String) :
      Reachable g → Reachable (joinTeamGame g teamNumberIdx playerName pid joinedAt)
  | start {g g' : GameState} :
      Reachable g → startCompanyGame g = Except.ok g' → Reachable g'
  | draw {g g' : GameState} (num cardIndex : Nat) :
      Reachable g → selectNumberByHost g num cardIndex = Except.ok g' → Reachable g'
  | place {g g' : GameState} (teamIdx : Nat) (playerName : String) (position : Nat) :
      Reachable g → placeNumberInTeam g teamIdx playerName position = Except.ok g' →
      Reachable g'

/-! ### Test fixtures and helper lemmas -/

/-- A 20-slot board with exactly the given positions filled; position i is
filled with the value i + 1 so that the filled values are pairwise distinct
and nonzero, making it visible that scoring ignores the values. -/
def fillBoard (idxs : List Nat) : List (Option Nat) :=
  (List.range 20).map (fun i => if idxs.contains i then some (i + 1) else none)

theorem lookup_isSome_iff {i : Nat} {l : List (Nat × Nat)} :
    (List.lookup i l).isSome = true ↔ ∃ q ∈ l, q.1 = i := by
  induction l with
  | nil => simp [List.lookup]
  | cons q l ih =>
    obtain ⟨a, b⟩ := q
    by_cases h : i = a
    · subst h
      simp [List.lookup_cons]
    · have hba : (i == a) = false := beq_false_of_ne h
      simp only [List.lookup_cons, hba, ih]
      constructor
      · rintro ⟨q, hq, rfl⟩
        exact ⟨q, List.mem_cons_of_mem _ hq, rfl⟩
      · rintro ⟨q, hq, rfl⟩
        rcases List.mem_cons.mp hq with heq | hmem
        · cases heq
          exact absurd rfl h
        · exact ⟨q, hmem, rfl⟩

theorem mem_getScoringGroups_iff {board : List (Option Nat)} {i : Nat} :
    (∃ q ∈ getScoringGroups board, q.1 = i) ↔
      ∃ r ∈ cyclicRuns (board.map Option.isSome), 2 ≤ r.length ∧ i ∈ r := by
  unfold getScoringGroups
  constructor
  · rintro ⟨q, hq, rfl⟩
    rw [List.mem_flatten] at hq
    obtain ⟨l, hl, hql⟩ := hq
    rw [List.mem_map] at hl
    obtain ⟨p, hp, rfl⟩ := hl
    rw [List.mem_map] at hql
    obtain ⟨s, hs, rfl⟩ := hql
    have hpmem := List.mem_enum_iff_getElem?.mp hp
    have hrun : p.2 ∈ (cyclicRuns (board.map Option.isSome)).filter (fun r => 2 ≤ r.length) := by
      rw [List.mem_iff_getElem?]
      exact ⟨p.1, hpmem⟩
    rw [List.mem_filter] at hrun
    exact ⟨p.2, hrun.1, by simpa using hrun.2, hs⟩
  · rintro ⟨r, hr, hlen, hir⟩
    have hmemf : r ∈ (cyclicRuns (board.map Option.isSome)).filter (fun r => 2 ≤ r.length) := by
      rw [List.mem_filter]
      exact ⟨hr, by simpa using hlen⟩
    rw [List.mem_iff_getElem?] at hmemf
    obtain ⟨k, hk⟩ := hmemf
    refine ⟨(i, k), ?_, rfl⟩
    rw [List.mem_flatten]
    refine ⟨r.map (fun s => (s, k)), ?_, ?_⟩
    · rw [List.mem_map]
      exact ⟨(k, r), List.mem_enum_iff_getElem?.mpr hk, rfl⟩
    · rw [List.mem_map]
      exact ⟨i, hir, rfl⟩

/-- Fixture: a player. -/
def alice : Player := { id := "p1", name := "alice", joinedAt := "t0" }

/-- Fixture: a one-member team with an empty board. -/
def team1 : Team where
  teamNumber := 1
  players := [alice]
  board := List.replicate 20 none
  score := 0
  hasPlacedCurrentNumber := false
  placedBy := none

/-- Fixture: a running single-team game in the middle of round 1. -/
def gameActive : GameState where
  companyName := "acme"
  teamCount := 1
  teams := [team1]
  availableNumbers := createFullDeck
  usedNumbers := [7]
  usedCardIndices := [6]
  currentNumber := some 7
  gameStarted := true
  gameEnded := false
  waitingForPlacements := true
  currentRound := 1
  finalRanking := []
  creatorId := "c"
  createdAt := "t0"

/-- Inversion of a successful placement: every guard of placeNumberInTeam
passed and the result is exactly the merged update the source builds. -/
theorem place_ok_inversion {g g' : GameState} {tIdx : Nat} {name : String} {pos : Nat}
    (h : placeNumberInTeam g tIdx name pos = Except.ok g') :
    ∃ team v,
      g.teams.get? tIdx = some team ∧
      g.gameStarted = true ∧ g.gameEnded = false ∧
      team.hasPlacedCurrentNumber = false ∧
      team.board.get? pos = some none ∧
      g.currentNumber = some v ∧ (v == 0) = false ∧
      g' = (let newBoard := team.board.set pos (some v)
            let newTeams := g.teams.set tIdx
              { team with
                board := newBoard
                score := calculatePlayerScore newBoard
                hasPlacedCurrentNumber := true
                placedBy := some name }
            let allPlaced := (newTeams.filter (fun t => 0 < t.players.length)).all
              (fun t => t.hasPlacedCurrentNumber)
            let mid := { g with teams := newTeams, waitingForPlacements := !allPlaced }
            if allPlaced && checkGameEnd mid then
              { mid with
                gameEnded := true
                finalRanking := calculateFinalRanking { mid with gameEnded := true } }
            else mid) := by
  unfold placeNumberInTeam at h
  split at h
  · exact absurd h (by simp)
  next hphase =>
    rw [Bool.or_eq_true, not_or, Bool.not_eq_true, Bool.not_eq_true] at hphase
    obtain ⟨hstarted0, hended⟩ := hphase
    have hstarted : g.gameStarted = true := by
      revert hstarted0
      cases g.gameStarted <;> simp
    split at h
    next hteam => exact absurd h (by simp)
    next team hteam =>
      split at h
      · exact absurd h (by simp)
      next hplaced =>
        rw [Bool.not_eq_true] at hplaced
        split at h
        · exact absurd h (by simp)
        next hocc =>
          have hocc2 : team.board.get? pos = some none := by
            revert hocc
            cases hb : team.board.get? pos <;> simp [hb]
          split at h
          next hnum => exact absurd h (by simp)
          next v hnum =>
            split at h
            · exact absurd h (by simp)
            next hzero =>
              rw [Bool.not_eq_true] at hzero
              refine ⟨team, v, hteam, hstarted, hended, hplaced, hocc2, hnum, hzero, ?_⟩
              simp only [] at h ⊢
              split at h
              · cases h
                rw [if_pos (by assumption)]
              · cases h
                rw [if_neg (by assumption)]

/-! ### Claims -/

/-- C1: the score function partitions the filled slots into maximal contiguous
cyclic runs (length-1 runs included) and sums pointsForLength over every run,
using exactly the fixed table (which coincides with the SCORE_TABLE_DATA the
player view renders); the empty board scores 0, any board with all 20 slots
filled scores 300 as one run of length 20 regardless of what values were
placed where, and a board with exactly two separated runs of lengths 3 and 4
scores 3 + 5 = 8. -/
theorem computeScore_partitions_and_table :
    (∀ p ∈ SCORE_TABLE_DATA, pointsForLength p.1 = p.2) ∧
    calculatePlayerScore (List.replicate 20 none) = 0 ∧
    (∀ board : List (Option Nat), board.length = 20 →
      (∀ x ∈ board, x.isSome = true) → calculatePlayerScore board = 300) ∧
    calculatePlayerScore (fillBoard [0, 1, 2, 9, 10, 11, 12]) = 8 := by
  refine ⟨by decide, by decide, ?_, by decide⟩
  intro board hlen hfill
  have hmask : board.map Option.isSome = List.replicate 20 true := by
    rw [List.eq_replicate_iff]
    refine ⟨by simp [hlen], ?_⟩
    intro b hb
    rcases List.mem_map.mp hb with ⟨x, hx, rfl⟩
    exact hfill x hx
  unfold calculatePlayerScore
  rw [hmask]
  decide

/-- Witness for C1: the fully filled board (values 1..20) indeed scores 300. -/
theorem computeScore_partitions_and_table_witness :
    calculatePlayerScore (fillBoard (List.range 20)) = 300 :=
  computeScore_partitions_and_table.2.2.1 (fillBoard (List.range 20)) (by decide) (by decide)

/-- C2: run detection treats slot 19 as adjacent to slot 0: with exactly slots
18, 19, 0, 1 filled (17 and 2 empty) it finds the single run [18, 19, 0, 1] of
length 4 scoring 5, never two runs of length 2; the four slots of that run
share one group id; a slot is grouped exactly when it lies in a detected run
of length at least 2, and a slot forming a length-1 run (slot 7 below) is
reported as ungrouped. -/
theorem getScoringGroups_wrap :
    cyclicRuns ((fillBoard [18, 19, 0, 1]).map Option.isSome) = [[18, 19, 0, 1]] ∧
    calculatePlayerScore (fillBoard [18, 19, 0, 1]) = 5 ∧
    (List.lookup 18 (getScoringGroups (fillBoard [18, 19, 0, 1])) = some 0 ∧
     List.lookup 19 (getScoringGroups (fillBoard [18, 19, 0, 1])) = some 0 ∧
     List.lookup 0 (getScoringGroups (fillBoard [18, 19, 0, 1])) = some 0 ∧
     List.lookup 1 (getScoringGroups (fillBoard [18, 19, 0, 1])) = some 0) ∧
    ((fillBoard [18, 19, 0, 1, 7]).get? 7 = some (some 8) ∧
     List.lookup 7 (getScoringGroups (fillBoard [18, 19, 0, 1, 7])) = none) ∧
    (∀ board : List (Option Nat), ∀ i : Nat,
      (List.lookup i (getScoringGroups board)).isSome = true ↔
        ∃ r ∈ cyclicRuns (board.map Option.isSome), 2 ≤ r.length ∧ i ∈ r) := by
  refine ⟨by decide, by decide, ⟨by decide, by decide, by decide, by decide⟩,
    ⟨by decide, by decide⟩, ?_⟩
  intro board i
  rw [lookup_isSome_iff]
  exact mem_getScoringGroups_iff

/-- Witness for C2: instantiating the grouping characterisation on a concrete
two-slot run shows slot 0 is grouped there. -/
theorem getScoringGroups_wrap_witness :
    (List.lookup 0 (getScoringGroups (fillBoard [0, 1]))).isSome = true :=
  (getScoringGroups_wrap.2.2.2.2 (fillBoard [0, 1]) 0).mpr ⟨[0, 1], by decide, by decide, by decide⟩

/-- C3: in an active game, a placement is rejected with AlreadyPlacedThisRound
when the team has already placed this round, with SlotOccupied when the target
slot is not empty, and with NoActiveDraw when there is no current draw value;
a rejection produces only the error, never a successor state, so the GameState
(that team's board and score included) is left unchanged — the source returns
from the handler before its single updateGame call. -/
theorem placeForTeam_rejections :
    ∀ (g : GameState) (tIdx : Nat) (name : String) (pos : Nat) (team : Team),
      g.gameStarted = true → g.gameEnded = false → g.teams.get? tIdx = some team →
      ((team.hasPlacedCurrentNumber = true →
          placeNumberInTeam g tIdx name pos = .error .AlreadyPlacedThisRound) ∧
       (team.hasPlacedCurrentNumber = false → team.board.get? pos ≠ some none →
          placeNumberInTeam g tIdx name pos = .error .SlotOccupied) ∧
       (team.hasPlacedCurrentNumber = false → team.board.get? pos = some none →
          g.currentNumber = none →
          placeNumberInTeam g tIdx name pos = .error .NoActiveDraw)) := by
  intro g tIdx name pos team hs he hteam
  have hteam2 : g.teams[tIdx]? = some team := by
    rw [← List.get?_eq_getElem?]; exact hteam
  refine ⟨?_, ?_, ?_⟩
  · intro hp
    simp [placeNumberInTeam, hs, he, hteam2, hp]
  · intro hp hocc
    have hb : ¬ (team.board[pos]? = some none) := by
      rw [← List.get?_eq_getElem?]; exact hocc
    simp [placeNumberInTeam, hs, he, hteam2, hp, hb]
  · intro hp hocc hcn
    have hb : team.board[pos]? = some none := by
      rw [← List.get?_eq_getElem?]; exact hocc
    simp [placeNumberInTeam, hs, he, hteam2, hp, hb, hcn]

/-- Witness for C3: the three rejection kinds on concrete states built from
the running fixture game. -/
theorem placeForTeam_rejections_witness :
    placeNumberInTeam
        { gameActive with teams := [{ team1 with hasPlacedCurrentNumber := true }] }
        0 "alice" 3 = .error .AlreadyPlacedThisRound ∧
    placeNumberInTeam
        { gameActive with teams := [{ team1 with board := fillBoard [3] }] }
        0 "alice" 3 = .error .SlotOccupied ∧
    placeNumberInTeam
        { gameActive with currentNumber := none }
        0 "alice" 3 = .error .NoActiveDraw :=
  ⟨(placeForTeam_rejections
      { gameActive with teams := [{ team1 with hasPlacedCurrentNumber := true }] }
      0 "alice" 3 { team1 with hasPlacedCurrentNumber := true } rfl rfl rfl).1 rfl,
   (placeForTeam_rejections
      { gameActive with teams := [{ team1 with board := fillBoard [3] }] }
      0 "alice" 3 { team1 with board := fillBoard [3] } rfl rfl rfl).2.1 rfl (by decide),
   (placeForTeam_rejections
      { gameActive with currentNumber := none }
      0 "alice" 3 team1 rfl rfl rfl).2.2 rfl (by decide) rfl⟩

/-- C4 counterexample: the round counter also changes without any draw.
startCompanyGame (src/App.tsx lines 613-625) checks only that one team has a
member — never gameStarted — so on the running fixture game (gameStarted,
round 1) a re-start is accepted at the engine level and resets the round
counter from 1 to 0; only the host UI hides the start button once the game
has started.  This refutes "the round counter changes in no other way". -/
theorem start_resets_round_cex :
    gameActive.gameStarted = true ∧
    gameActive.currentRound = 1 ∧
    (startCompanyGame gameActive).isOk = true ∧
    (startCompanyGame gameActive).toOption.map (fun g => g.currentRound) = some 0 := by
  decide

/-- C4 amended: a draw succeeds exactly when waitingForPlacements is false;
when it is true the handler rejects with RoundInProgress and produces no
successor state (the GameState is unchanged).  A successful draw sets
currentNumber to the passed card value (the HostView callers always pass the
value FULL_DECK[cardIndex] of the drawn card), appends the card index to
usedCardIndices, clears every active team's hasPlacedCurrentNumber flag,
increments the round counter by exactly one and raises waitingForPlacements.
A successful placement and a roster join both preserve the round counter, but
a successful (re-)start — which the engine accepts even mid-game, only the
host UI hiding the button — resets it to 0: the round counter changes in no
way other than a draw (+1) or a start (reset to 0). -/
theorem drawCard_spec :
    ∀ (g : GameState) (num cardIndex : Nat),
      (g.waitingForPlacements = true →
        selectNumberByHost g num cardIndex = .error .RoundInProgress) ∧
      (g.waitingForPlacements = false →
        ∃ g', selectNumberByHost g num cardIndex = .ok g' ∧
          g'.currentNumber = some num ∧
          g'.usedCardIndices = g.usedCardIndices ++ [cardIndex] ∧
          cardIndex ∈ g'.usedCardIndices ∧
          (∀ t ∈ activeTeams g', t.hasPlacedCurrentNumber = false) ∧
          g'.currentRound = g.currentRound + 1 ∧
          g'.waitingForPlacements = true) ∧
      (∀ (tIdx : Nat) (nm : String) (pos : Nat) (g' : GameState),
        placeNumberInTeam g tIdx nm pos = .ok g' → g'.currentRound = g.currentRound) ∧
      (∀ (tIdx : Nat) (nm pid ts : String),
        (joinTeamGame g tIdx nm pid ts).currentRound = g.currentRound) ∧
      (∀ g' : GameState, startCompanyGame g = .ok g' → g'.currentRound = 0) := by
  intro g num cardIndex
  refine ⟨?_, ?_, ?_, ?_, ?_⟩
  · intro hw
    simp [selectNumberByHost, hw]
  · intro hw
    refine ⟨{ g with
        currentNumber := some num
        usedNumbers := g.usedNumbers ++ [num]
        usedCardIndices := g.usedCardIndices ++ [cardIndex]
        waitingForPlacements := true
        currentRound := g.currentRound + 1
        teams := g.teams.map (fun t =>
          { t with hasPlacedCurrentNumber := false, placedBy := none }) },
      ?_, rfl, rfl, ?_, ?_, rfl, rfl⟩
    · simp [selectNumberByHost, hw]
    · exact List.mem_append_right _ (List.mem_singleton_self _)
    · intro t ht
      have ht2 := List.mem_filter.mp ht
      rcases List.mem_map.mp ht2.1 with ⟨t0, _, rfl⟩
      rfl
  · intro tIdx nm pos g' h
    obtain ⟨team, v, -, -, -, -, -, -, -, hg'⟩ := place_ok_inversion h
    subst hg'
    simp only []
    split <;> rfl
  · intro tIdx nm pid ts
    unfold joinTeamGame
    split
    · rfl
    split
    · rfl
    split
    · rfl
    split
    · rfl
    · rfl
  · intro g' hok
    unfold startCompanyGame at hok
    split at hok
    · exact absurd hok (by simp)
    · cases hok
      rfl

/-- Membership in the host UI's candidate list implies the index is in range
and undrawn. -/
theorem mem_availableIndices {g : GameState} {idx : Nat}
    (h : idx ∈ availableIndices g) : idx < 40 ∧ idx ∉ g.usedCardIndices := by
  unfold availableIndices at h
  rw [List.mem_filter] at h
  obtain ⟨hr, hc⟩ := h
  refine ⟨List.mem_range.mp hr, ?_⟩
  intro hmem
  simp at hc
  exact hc hmem

/-- The candidate list of undrawn indices has no duplicates. -/
theorem availableIndices_nodup (g : GameState) : (availableIndices g).Nodup :=
  List.Nodup.filter _ (List.nodup_range _)

/-- Inversion of a successful random selection: the selected index is the
(k mod length)-th element of the candidate list and carries its deck value. -/
theorem handleRandomSelect_some {g : GameState} {k v i : Nat}
    (h : handleRandomSelect g k = some (v, i)) :
    i ∈ availableIndices g ∧ v = FULL_DECK.getD i 0 ∧
      i = (availableIndices g).getD (k % (availableIndices g).length) 0 := by
  unfold handleRandomSelect at h
  split at h
  · exact absurd h (by simp)
  next hgate =>
    simp only [] at h
    split at h
    · exact absurd h (by simp)
    next hlen =>
      injection h with h2
      injection h2 with hv hi
      subst hi
      have hlt : k % (availableIndices g).length < (availableIndices g).length :=
        Nat.mod_lt _ (Nat.pos_of_ne_zero hlen)
      refine ⟨?_, hv.symm, rfl⟩
      rw [List.getD_eq_getElem _ _ hlt]
      exact List.getElem_mem hlt

/-- Witness for C4: the fixture game mid-round rejects a draw, and after the
round settles a fresh draw is accepted. -/
theorem drawCard_spec_witness :
    selectNumberByHost gameActive 9 5 = .error .RoundInProgress ∧
    ∃ g', selectNumberByHost { gameActive with waitingForPlacements := false } 9 5 = .ok g' ∧
      g'.currentNumber = some 9 ∧
      g'.usedCardIndices = [6] ++ [5] ∧
      (5 : Nat) ∈ g'.usedCardIndices ∧
      (∀ t ∈ activeTeams g', t.hasPlacedCurrentNumber = false) ∧
      g'.currentRound = 1 + 1 ∧
      g'.waitingForPlacements = true :=
  ⟨(drawCard_spec gameActive 9 5).1 rfl,
   (drawCard_spec { gameActive with waitingForPlacements := false } 9 5).2.1 rfl⟩

/-- C5 counterexample: the engine's draw handler performs no index
validation.  In a game whose drawn set already holds index 6 (and with no
round in progress) a draw of index 6 is accepted, not rejected with
InvalidDraw, leaving usedCardIndices with the duplicate [6, 6]; an
out-of-range index 99 is likewise accepted and recorded. -/
theorem draw_accepts_duplicate_index_cex :
    (6 : Nat) ∈ gameActive.usedCardIndices ∧
    (selectNumberByHost { gameActive with waitingForPlacements := false } 9 6).isOk = true ∧
    (selectNumberByHost { gameActive with waitingForPlacements := false } 9 6).toOption.map
      (fun g => g.usedCardIndices) = some [6, 6] ∧
    ¬ List.Nodup [6, 6] ∧
    (selectNumberByHost { gameActive with waitingForPlacements := false } 9 99).isOk = true ∧
    (selectNumberByHost { gameActive with waitingForPlacements := false } 9 99).toOption.map
      (fun g => g.usedCardIndices) = some [6, 99] ∧
    ¬ (99 < 40) := by
  decide

/-- C5 amended: selectNumberByHost itself never rejects an index; uniqueness
and range of drawn indices are enforced by the host UI's candidate list
(HostView disables used cards and handleRandomSelect filters them): every
candidate index is in [0, 40) and undrawn, every random selection picks a
candidate, and a draw of a candidate index preserves the no-duplicate and
in-range invariants of usedCardIndices. -/
theorem draw_index_validity_amended :
    ∀ (g : GameState) (idx : Nat),
      (idx ∈ availableIndices g → idx < 40 ∧ idx ∉ g.usedCardIndices) ∧
      (∀ k v i, handleRandomSelect g k = some (v, i) → i ∈ availableIndices g) ∧
      (∀ (num : Nat) (g' : GameState), g.usedCardIndices.Nodup →
        idx ∈ availableIndices g → selectNumberByHost g num idx = Except.ok g' →
        g'.usedCardIndices.Nodup ∧
          ((∀ j ∈ g.usedCardIndices, j < 40) → ∀ j ∈ g'.usedCardIndices, j < 40)) := by
  intro g idx
  refine ⟨fun h => mem_availableIndices h, ?_, ?_⟩
  · intro k v i h
    exact (handleRandomSelect_some h).1
  · intro num g' hnd hmem hok
    obtain ⟨hlt, hnotmem⟩ := mem_availableIndices hmem
    unfold selectNumberByHost at hok
    split at hok
    · exact absurd hok (by simp)
    · cases hok
      constructor
      · show (g.usedCardIndices ++ [idx]).Nodup
        rw [List.nodup_append]
        refine ⟨hnd, List.nodup_singleton _, ?_⟩
        intro a ha hb
        rw [List.mem_singleton] at hb
        subst hb
        exact hnotmem ha
      · intro hrange j hj
        show j < 40
        rcases List.mem_append.mp hj with hj1 | hj2
        · exact hrange j hj1
        · rw [List.mem_singleton] at hj2
          subst hj2
          exact hlt

/-- Witness for C5 amended: index 5 is a candidate of the fixture game (drawn
set [6]) and drawing it keeps the drawn set duplicate-free and in range. -/
theorem draw_index_validity_amended_witness :
    ((5 : Nat) < 40 ∧ (5 : Nat) ∉ gameActive.usedCardIndices) ∧
    (List.Nodup [6, 5] ∧
      ((∀ j ∈ gameActive.usedCardIndices, j < 40) → ∀ j ∈ ([6, 5] : List Nat), j < 40)) :=
  ⟨(draw_index_validity_amended gameActive 5).1 (by decide),
   (draw_index_validity_amended { gameActive with waitingForPlacements := false } 5).2.2 9
     { gameActive with
       waitingForPlacements := true
       currentNumber := some 9
       usedNumbers := [7, 9]
       usedCardIndices := [6, 5]
       currentRound := 2
       teams := [team1] }
     (by decide) (by decide) rfl⟩

/-- C6 counterexample: after the game has ended a draw is still accepted by
the engine.  On an ended fixture game (round 1, waitingForPlacements false)
selectNumberByHost succeeds and mutates the state — the round counter moves
from 1 to 2 — because the handler checks only waitingForPlacements, never
gameEnded; only the host UI hides the draw controls.  This refutes
"afterwards no mutation (neither a draw nor a placement) is ever accepted". -/
theorem ended_accepts_draw_cex :
    ({ gameActive with gameEnded := true, waitingForPlacements := false } : GameState).gameEnded
        = true ∧
    ({ gameActive with gameEnded := true, waitingForPlacements := false } : GameState).currentRound
        = 1 ∧
    (selectNumberByHost
        { gameActive with gameEnded := true, waitingForPlacements := false } 9 5).isOk = true ∧
    (selectNumberByHost
        { gameActive with gameEnded := true, waitingForPlacements := false } 9 5).toOption.map
      (fun g => g.currentRound) = some 2 := by
  decide

/-- C6 amended: the ACTIVE to ENDED transition happens exactly at a successful
placement after which every active team has placed and the termination
condition (round counter at 20 or all active boards full, either alone
sufficient) holds; at that transition the final ranking is computed from the
new state and frozen into it, and placements are never accepted afterwards
(GameNotActive).  However a draw is still accepted by the engine after ENDED —
only the host UI prevents it — though a draw never changes gameEnded or the
frozen finalRanking. -/
theorem ended_transition_amended :
    ∀ (g : GameState) (tIdx : Nat) (name : String) (pos : Nat),
      (g.gameEnded = true → placeNumberInTeam g tIdx name pos = .error .GameNotActive) ∧
      (∀ g', placeNumberInTeam g tIdx name pos = .ok g' →
        g.gameEnded = false ∧
        g'.gameEnded = ((g'.teams.filter (fun t => 0 < t.players.length)).all
            (fun t => t.hasPlacedCurrentNumber) && checkGameEnd g') ∧
        (g'.gameEnded = true → g'.finalRanking = calculateFinalRanking g') ∧
        (g'.gameEnded = false → g'.finalRanking = g.finalRanking)) ∧
      (∀ (num idx : Nat) (g' : GameState), selectNumberByHost g num idx = .ok g' →
        g'.gameEnded = g.gameEnded ∧ g'.finalRanking = g.finalRanking) := by
  intro g tIdx name pos
  refine ⟨?_, ?_, ?_⟩
  · intro he
    simp [placeNumberInTeam, he]
  · intro g' hok
    obtain ⟨team, v, hteam, hstarted, hended, hplaced, hocc, hnum, hzero, hg'⟩ :=
      place_ok_inversion hok
    subst hg'
    simp only []
    split
    next hcond =>
      refine ⟨hended, ?_, fun _ => rfl, ?_⟩
      · exact hcond.symm
      · intro hfalse
        exact absurd hfalse (by simp)
    next hcond =>
      refine ⟨hended, ?_, ?_, fun _ => rfl⟩
      · rw [hended]
        exact (Bool.eq_false_iff.mpr hcond).symm
      · intro htrue
        rw [hended] at htrue
        exact absurd htrue (by simp)
  · intro num idx g' hok
    unfold selectNumberByHost at hok
    split at hok
    · exact absurd hok (by simp)
    · cases hok
      exact ⟨rfl, rfl⟩

/-- Witness for C6 amended: an ended game rejects every placement. -/
theorem ended_transition_amended_witness :
    placeNumberInTeam { gameActive with gameEnded := true } 0 "alice" 3
      = .error .GameNotActive :=
  (ended_transition_amended { gameActive with gameEnded := true } 0 "alice" 3).1 rfl

/-- Elements of a mapIdx image come from an indexed element of the source. -/
theorem exists_of_mem_mapIdx {α β : Type} {f : Nat → α → β} {l : List α} {b : β}
    (h : b ∈ l.mapIdx f) : ∃ i a, l.get? i = some a ∧ b = f i a := by
  induction l generalizing f with
  | nil =>
    rw [List.mapIdx_nil] at h
    exact absurd h (by simp)
  | cons x xs ih =>
    rw [List.mapIdx_cons] at h
    rcases List.mem_cons.mp h with h1 | h2
    · exact ⟨0, x, rfl, h1⟩
    · obtain ⟨i, a, hget, rfl⟩ := ih h2
      exact ⟨i + 1, a, hget, rfl⟩

/-- C7: in every reachable game state every team's stored score field equals
calculatePlayerScore of its current board: the initial score 0 matches the
empty board, joins, game start and draws do not touch boards or scores, and a
successful placement stores exactly the score recomputed from scratch from
the whole new board (src/App.tsx line 660), never an incremental delta. -/
theorem score_invariant :
    ∀ g : GameState, Reachable g → ∀ t ∈ g.teams, t.score = calculatePlayerScore t.board := by
  intro g hreach
  induction hreach with
  | init companyName teamCount creatorId createdAt =>
    intro t ht
    rcases List.mem_map.mp ht with ⟨i, -, rfl⟩
    show (0 : Nat) = calculatePlayerScore (List.replicate 20 none)
    decide
  | @join g tIdx name pid ts hr ih =>
    intro t ht
    unfold joinTeamGame at ht
    split at ht
    · exact ih t ht
    · split at ht
      next => exact ih t ht
      next team hteam =>
        split at ht
        · exact ih t ht
        · split at ht
          · exact ih t ht
          · simp only [] at ht
            obtain ⟨i, a, hget, rfl⟩ := exists_of_mem_mapIdx ht
            have ha : a ∈ g.teams := by
              rw [List.get?_eq_getElem?] at hget
              obtain ⟨hlt, hEq⟩ := List.getElem?_eq_some.mp hget
              exact hEq ▸ List.getElem_mem hlt
            by_cases hi : i = tIdx
            · rw [if_pos hi]
              exact ih a ha
            · rw [if_neg hi]
              exact ih a ha
  | @start g g' hr hok ih =>
    unfold startCompanyGame at hok
    split at hok
    · exact absurd hok (by simp)
    · cases hok
      intro t ht
      exact ih t ht
  | @draw g g' num cardIndex hr hok ih =>
    unfold selectNumberByHost at hok
    split at hok
    · exact absurd hok (by simp)
    · cases hok
      intro t ht
      rcases List.mem_map.mp ht with ⟨a, ha, rfl⟩
      exact ih a ha
  | @place g g' tIdx name pos hr hok ih =>
    obtain ⟨team, v, hteam, hstarted, hended, hplaced, hocc, hnum, hzero, hg'⟩ :=
      place_ok_inversion hok
    subst hg'
    intro t ht
    simp only [] at ht
    have hts : t ∈ g.teams.set tIdx
        { team with
          board := team.board.set pos (some v)
          score := calculatePlayerScore (team.board.set pos (some v))
          hasPlacedCurrentNumber := true
          placedBy := some name } := by
      revert ht
      split
      · intro ht; exact ht
      · intro ht; exact ht
    rcases List.mem_or_eq_of_mem_set hts with hmem | heq
    · exact ih t hmem
    · subst heq
      rfl

/-- Witness for C7: the state reached by one join into a fresh one-team game
contains the fixture team, whose stored score matches its board. -/
theorem score_invariant_witness :
    team1.score = calculatePlayerScore team1.board :=
  score_invariant (joinTeamGame (initialGame "acme" 1 "c" "t0") 0 "alice" "p1" "t0")
    (Reachable.join 0 "alice" "p1" "t0" (Reachable.init "acme" 1 "c" "t0"))
    team1 (by decide)

/-- C8: with no round in progress and the game not ended, random selection
finds no candidate exactly when the drawn set covers every deck index 0..39
and then produces nothing (DeckExhausted, an early return in the source);
otherwise it returns an undrawn in-range index paired with its deck value;
with exactly one candidate left it always returns that one; and the selection
is uniform among the remaining candidates: the candidate list has no
duplicates and each candidate is produced by exactly one random seed below
the number of candidates. -/
theorem randomUndrawn_spec :
    ∀ (g : GameState) (k : Nat),
      g.waitingForPlacements = false → g.gameEnded = false →
      ((availableIndices g = [] ↔ ∀ i < 40, i ∈ g.usedCardIndices) ∧
       (availableIndices g = [] → handleRandomSelect g k = none) ∧
       (∀ v i, handleRandomSelect g k = some (v, i) →
          i ∈ availableIndices g ∧ i ∉ g.usedCardIndices ∧ i < 40 ∧
            v = FULL_DECK.getD i 0) ∧
       (∀ i, availableIndices g = [i] →
          handleRandomSelect g k = some (FULL_DECK.getD i 0, i)) ∧
       (∀ i ∈ availableIndices g,
          ∃! j, j < (availableIndices g).length ∧
            handleRandomSelect g j = some (FULL_DECK.getD i 0, i))) := by
  intro g k hw he
  refine ⟨?_, ?_, ?_, ?_, ?_⟩
  · unfold availableIndices
    rw [List.filter_eq_nil_iff]
    constructor
    · intro h i hi
      have := h i (List.mem_range.mpr hi)
      simpa using this
    · intro h a ha
      simpa using h a (List.mem_range.mp ha)
  · intro hempty
    unfold handleRandomSelect
    rw [hw, he]
    simp [hempty]
  · intro v i h
    obtain ⟨hmem, hv, -⟩ := handleRandomSelect_some h
    obtain ⟨hlt, hnot⟩ := mem_availableIndices hmem
    exact ⟨hmem, hnot, hlt, hv⟩
  · intro i hone
    unfold handleRandomSelect
    rw [hw, he]
    simp [hone, Nat.mod_one]
  · intro i hi
    have hidxlt : (availableIndices g).indexOf i < (availableIndices g).length :=
      List.indexOf_lt_length.mpr hi
    have hlen : (availableIndices g).length ≠ 0 :=
      Nat.pos_iff_ne_zero.mp (Nat.lt_of_le_of_lt (Nat.zero_le _) hidxlt)
    refine ⟨(availableIndices g).indexOf i, ⟨hidxlt, ?_⟩, ?_⟩
    · unfold handleRandomSelect
      rw [hw, he]
      rw [if_neg (by simp)]
      simp only []
      rw [if_neg hlen, Nat.mod_eq_of_lt hidxlt,
        List.getD_eq_getElem _ _ hidxlt, List.getElem_indexOf hidxlt]
    · rintro j ⟨hjlt, hjeq⟩
      obtain ⟨-, -, hj⟩ := handleRandomSelect_some hjeq
      rw [Nat.mod_eq_of_lt hjlt] at hj
      have hget : (availableIndices g)[j] = i := by
        rw [List.getD_eq_getElem _ _ hjlt] at hj
        exact hj.symm
      have hidx : (availableIndices g)[(availableIndices g).indexOf i] = i :=
        List.getElem_indexOf hidxlt
      exact ((availableIndices_nodup g).getElem_inj_iff).mp (hget.trans hidx.symm)

/-- Witness for C8: on the fixture game between rounds (drawn set [6]) the
seed 0 selects index 0 carrying deck value 1. -/
theorem randomUndrawn_spec_witness :
    (0 : Nat) ∈ availableIndices { gameActive with waitingForPlacements := false } ∧
    (0 : Nat) ∉ ({ gameActive with waitingForPlacements := false } : GameState).usedCardIndices ∧
    0 < 40 ∧ (1 : Nat) = FULL_DECK.getD 0 0 :=
  (randomUndrawn_spec { gameActive with waitingForPlacements := false } 0 rfl rfl).2.2.1
    1 0 (by decide)

/-- C9: a successful placement by team tIdx changes only that team's entry —
its board gains the current draw value at exactly the chosen slot, with score,
hasPlacedCurrentNumber and placedBy updated — together with the game's
waitingForPlacements flag and, on termination, gameEnded and finalRanking;
every other team's entry and every other game field (currentNumber,
usedNumbers, usedCardIndices, availableNumbers, currentRound, teamCount,
companyName, gameStarted, creatorId, createdAt) is unchanged. -/
theorem place_frame :
    ∀ (g : GameState) (tIdx : Nat) (name : String) (pos : Nat) (g' : GameState),
      placeNumberInTeam g tIdx name pos = .ok g' →
      g'.companyName = g.companyName ∧
      g'.teamCount = g.teamCount ∧
      g'.availableNumbers = g.availableNumbers ∧
      g'.usedNumbers = g.usedNumbers ∧
      g'.usedCardIndices = g.usedCardIndices ∧
      g'.currentNumber = g.currentNumber ∧
      g'.currentRound = g.currentRound ∧
      g'.gameStarted = g.gameStarted ∧
      g'.creatorId = g.creatorId ∧
      g'.createdAt = g.createdAt ∧
      g'.teams.length = g.teams.length ∧
      (∀ j, j ≠ tIdx → g'.teams.get? j = g.teams.get? j) ∧
      (∃ team v, g.teams.get? tIdx = some team ∧ g.currentNumber = some v ∧
        g'.teams.get? tIdx = some
          { team with
            board := team.board.set pos (some v)
            score := calculatePlayerScore (team.board.set pos (some v))
            hasPlacedCurrentNumber := true
            placedBy := some name }) ∧
      (g'.gameEnded = false → g'.finalRanking = g.finalRanking) := by
  intro g tIdx name pos g' hok
  obtain ⟨team, v, hteam, hstarted, hended, hplaced, hocc, hnum, hzero, hg'⟩ :=
    place_ok_inversion hok
  have hteams : g'.teams = g.teams.set tIdx
      { team with
        board := team.board.set pos (some v)
        score := calculatePlayerScore (team.board.set pos (some v))
        hasPlacedCurrentNumber := true
        placedBy := some name } := by
    subst hg'
    try simp only []
    split <;> rfl
  have hfields : g'.companyName = g.companyName ∧ g'.teamCount = g.teamCount ∧
      g'.availableNumbers = g.availableNumbers ∧ g'.usedNumbers = g.usedNumbers ∧
      g'.usedCardIndices = g.usedCardIndices ∧ g'.currentNumber = g.currentNumber ∧
      g'.currentRound = g.currentRound ∧ g'.gameStarted = g.gameStarted ∧
      g'.creatorId = g.creatorId ∧ g'.createdAt = g.createdAt := by
    subst hg'
    try simp only []
    split <;> exact ⟨rfl, rfl, rfl, rfl, rfl, rfl, rfl, rfl, rfl, rfl⟩
  obtain ⟨h1, h2, h3, h4, h5, h6, h7, h8, h9, h10⟩ := hfields
  have htlt : tIdx < g.teams.length := by
    rw [List.get?_eq_getElem?] at hteam
    exact (List.getElem?_eq_some.mp hteam).1
  refine ⟨h1, h2, h3, h4, h5, h6, h7, h8, h9, h10, ?_, ?_, ?_, ?_⟩
  · rw [hteams, List.length_set]
  · intro j hj
    rw [hteams, List.get?_eq_getElem?, List.get?_eq_getElem?,
      List.getElem?_set_ne (fun h => hj h.symm)]
  · refine ⟨team, v, hteam, hnum, ?_⟩
    rw [hteams, List.get?_eq_getElem?, List.getElem?_set_self htlt]
  · intro hgend
    subst hg'
    try simp only [] at hgend ⊢
    split at hgend
    · exact absurd hgend (by simp)
    · rw [if_neg (by assumption)]

/-- Fixture: the state produced by the fixture game's only team placing the
current draw 7 at slot 3 (round settles, game does not end). -/
def placedFixture : GameState :=
  { gameActive with
    teams := [{ team1 with
      board := (List.replicate 20 none).set 3 (some 7)
      score := calculatePlayerScore ((List.replicate 20 none).set 3 (some 7))
      hasPlacedCurrentNumber := true
      placedBy := some "alice" }]
    waitingForPlacements := false }

/-- Witness for C9: the fixture placement keeps the drawn-card bookkeeping
(usedCardIndices) of the game untouched. -/
theorem place_frame_witness :
    placedFixture.usedCardIndices = gameActive.usedCardIndices :=
  (place_frame gameActive 0 "alice" 3 placedFixture rfl).2.2.2.2.1

theorem mapIdx_id_of {α : Type} : ∀ l : List α, l.mapIdx (fun _ a => a) = l := by
  intro l
  induction l with
  | nil => rw [List.mapIdx_nil]
  | cons x xs ih =>
    rw [List.mapIdx_cons]
    exact congrArg (x :: ·) ih

/-- The source's indexed map that rewrites only position n equals a List.set
at that position. -/
theorem mapIdx_ite_eq_set {α : Type} (f : α → α) :
    ∀ (l : List α) (n : Nat) (a : α), l.get? n = some a →
      l.mapIdx (fun idx t => if idx = n then f t else t) = l.set n (f a) := by
  intro l
  induction l with
  | nil =>
    intro n a h
    simp at h
  | cons x xs ih =>
    intro n a h
    cases n with
    | zero =>
      injection h with h
      subst h
      rw [List.mapIdx_cons]
      simp only [if_pos rfl]
      have hfun : (fun (i : Nat) (t : α) => if i + 1 = 0 then f t else t)
          = fun _ t => t := by
        funext i t
        simp
      rw [hfun, mapIdx_id_of]
      rfl
    | succ m =>
      rw [List.mapIdx_cons]
      rw [if_neg (by omega : ¬ (0 : Nat) = m + 1)]
      have hfun : (fun (i : Nat) (t : α) => if i + 1 = m + 1 then f t else t)
          = fun i t => if i = m then f t else t := by
        funext i t
        exact if_congr (by omega) rfl rfl
      rw [hfun, ih m a h]
      rfl

/-- C10 counterexample: a join request with an empty player name targeting an
existing game whose team 0 is neither full nor holds that name is rejected —
the games list is unchanged, no player is appended — refuting "otherwise it
appends exactly one new player". -/
theorem joinTeam_blank_name_cex :
    [gameActive].findIdx?
        (fun g => generateGameId g.companyName == generateGameId gameActive.companyName)
      = some 0 ∧
    gameActive.teams.get? 0 = some team1 ∧
    team1.players.length < 10 ∧
    team1.players.any (fun p => p.name == "") = false ∧
    joinTeam [gameActive] (generateGameId gameActive.companyName) 0 "" "pX" "tX"
      = [gameActive] := by
  decide

/-- C10 amended: a join request on a found game is rejected, with the games
list unchanged, when the target team already has 10 players, already contains
a player with the requested name, or the requested name is blank (empty after
trimming whitespace, the source's `!playerName.trim()` guard); otherwise it
appends exactly one new player to the target team: the result is exactly the
games list with only the target game's target team extended by the one new
player, every other game entry untouched. -/
theorem joinTeam_guards_amended :
    ∀ (games : List GameState) (gameId : String) (tIdx : Nat) (nm pid ts : String)
      (gi : Nat) (game : GameState) (team : Team),
      games.findIdx? (fun g => generateGameId g.companyName == gameId) = some gi →
      games.get? gi = some game →
      game.teams.get? tIdx = some team →
      ((10 ≤ team.players.length ∨ team.players.any (fun p => p.name == nm) = true ∨
          isBlankName nm = true) → joinTeam games gameId tIdx nm pid ts = games) ∧
      (isBlankName nm = false → team.players.length < 10 →
        team.players.any (fun p => p.name == nm) = false →
        joinTeam games gameId tIdx nm pid ts =
          games.set gi
            { game with
              teams := game.teams.set tIdx
                { team with
                  players := team.players ++ [{ id := pid, name := nm, joinedAt := ts }] } } ∧
        (∀ j, j ≠ gi →
          (joinTeam games gameId tIdx nm pid ts).get? j = games.get? j)) := by
  intro games gameId tIdx nm pid ts gi game team hfind hget hteam
  constructor
  · intro hrej
    unfold joinTeam
    simp only [hfind]
    by_cases hblank : isBlankName nm = true
    · rw [if_pos hblank]
    · rw [if_neg hblank]
      simp only [hget, hteam]
      by_cases hfull : 10 ≤ team.players.length
      · rw [if_pos hfull]
      · rw [if_neg hfull]
        rcases hrej with h | h | h
        · exact absurd h hfull
        · rw [if_pos h]
        · exact absurd h hblank
  · intro hblank hlen hany
    have hjoin : joinTeam games gameId tIdx nm pid ts =
        games.set gi
          { game with
            teams := game.teams.set tIdx
              { team with
                players := team.players ++ [{ id := pid, name := nm, joinedAt := ts }] } } := by
      unfold joinTeam
      simp only [hfind]
      rw [if_neg (by simp [hblank])]
      simp only [hget, hteam]
      rw [if_neg (by omega : ¬ 10 ≤ team.players.length), if_neg (by simp [hany])]
      try simp only []
      rw [mapIdx_ite_eq_set
        (fun t => { t with players := t.players ++ [{ id := pid, name := nm, joinedAt := ts }] })
        game.teams tIdx team hteam]
    refine ⟨hjoin, ?_⟩
    intro j hj
    rw [hjoin, List.get?_eq_getElem?, List.get?_eq_getElem?,
      List.getElem?_set_ne (fun h => hj h.symm)]

/-- Witness for C10 amended: joining "bob" into the fixture game appends
exactly that one player to team 0. -/
theorem joinTeam_guards_amended_witness :
    joinTeam [gameActive] "acme" 0 "bob" "p2" "t1"
      = [gameActive].set 0
          { gameActive with
            teams := gameActive.teams.set 0
              { team1 with
                players := team1.players ++ [{ id := "p2", name := "bob", joinedAt := "t1" }] } } :=
  ((joinTeam_guards_amended [gameActive] "acme" 0 "bob" "p2" "t1" 0 gameActive team1
      (by decide) rfl rfl).2 (by decide) (by decide) (by decide)).1

end CollectiveIntelligence
